import Mathlib

/-!
Verification of the two decision engines of the My-Quant-Strates repository:
the growth/momentum stock-selection strategy (`growth_trend_resonance/strategy.py`)
and the MACD-KDJ-ATR trading signal state machine (`macd_kdj_atr/strategy.py`).

Real values carried by bars and indicators are modelled as `ℚ`; a value that is
IEEE NaN in the Python source (missing history, zero denominator) is modelled as
`none : Option ℚ` where the distinction matters, and comparisons against NaN
follow IEEE semantics (every comparison with NaN is false).
-/

namespace QuantStrats

namespace GrowthTrend

/-- `sorted(pairs, key=lambda x: x[1], reverse=True)`: stable descending sort by
the value `f` assigns to each element, as used in `StockSelectStrategy.rebalance`. -/
def sortDescBy {α : Type} (f : α → ℚ) (l : List α) : List α :=
  l.insertionSort (fun a b => f b ≤ f a)

/-- `top_third = [n for n,_ in ttm_vals[:len(universe)//3]]`: rank the universe by
TTM growth descending and keep the top third (integer division truncating). -/
def topThird {α : Type} (ttm : α → ℚ) (univ : List α) : List α :=
  (sortDescBy ttm univ).take (univ.length / 3)

/-- Base pool, lines 115-118 of `strategy.py`: within the top third, drop every
instrument with acceleration `≤ 0`, rank the remainder by acceleration descending
and keep the top half (`acc_vals[:len(acc_vals)//2]`, truncating). -/
def basePool {α : Type} (ttm acc : α → ℚ) (univ : List α) : List α :=
  let accVals := sortDescBy acc ((topThird ttm univ).filter (fun n => decide (0 < acc n)))
  accVals.take (accVals.length / 2)

/-- TTM growth values of the three-instrument scenario in the spec's §8. -/
def ttmScenario : ℕ → ℚ
  | 0 => 0.30
  | 1 => 0.10
  | _ => -0.05

/-- Acceleration values of the three-instrument scenario in the spec's §8. -/
def accScenario : ℕ → ℚ
  | 0 => 1.5
  | 1 => -0.2
  | _ => 0.8

/-- IEEE/NumPy comparison `x <= c` where `x` may be NaN (modelled `none`): every
comparison against NaN is false, as in the Python hard-filter lines 125-126. -/
def nanLE (o : Option ℚ) (c : ℚ) : Bool := o.elim false (fun x => decide (x ≤ c))

/-- IEEE/NumPy comparison `x < c` with NaN modelled as `none` (false on NaN). -/
def nanLT (o : Option ℚ) (c : ℚ) : Bool := o.elim false (fun x => decide (x < c))

/-- The inner `norm` function of `rebalance` (lines 130-132):
`v = [x for x in arr if not np.isnan(x)]; mn, mx = min(v), max(v);
return [50 if mn==mx else (x-mn)/(mx-mn)*100 for x in arr]`.
NaN entries are modelled as `none`; `min`/`max` of an empty `v` raises in Python,
modelled by the `none` result. In the degenerate `mn == mx` branch every entry of
`arr` - NaN entries included - receives the number 50; otherwise each defined
entry is scaled and NaN entries propagate as NaN. -/
def norm (arr : List (Option ℚ)) : Option (List (Option ℚ)) :=
  match arr.filterMap id with
  | [] => none
  | x :: xs =>
    let mn := xs.foldl min x
    let mx := xs.foldl max x
    some (if mn = mx then arr.map (fun _ => some 50)
      else arr.map (fun o => o.map (fun t => (t - mn) / (mx - mn) * 100)))

/-- Hard-filter test of `rebalance` lines 123-127: an instrument is appended to
`eligible` unless `npap <= 0.5 or solv <= -1 or roe <= 0.01` or
`vol < vol_thresh or recent_issuance or is_ST`; NaN factor values make every
comparison false, so they never trigger the `continue`. -/
def passesHardFilters (npap solv roe vol : Option ℚ) (volThresh : ℚ)
    (recentIssuance isST : Bool) : Bool :=
  !(nanLE npap 0.5 || nanLE solv (-1) || nanLE roe 0.01) &&
  !(nanLT vol volThresh || recentIssuance || isST)

/-- Per-instrument bar data consulted by the final-selection loop. -/
structure SelRow where
  name : String
  high : ℚ
  low : ℚ
  volume : ℚ

/-- Line 155: `not (d.high[0] == d.low[0] or d.volume[0] == 0)` - the instrument
is neither halted (high equals low) nor without traded volume. -/
def tradable (r : SelRow) : Bool := !(decide (r.high = r.low) || decide (r.volume = 0))

/-- Final-selection loop of `rebalance` lines 152-156: walk the composite-ranked
list, append tradable names, stop once `selnum` names are collected or the list
is exhausted. -/
def finalSelect (selnum : ℕ) : List SelRow → List String
  | [] => []
  | r :: rest =>
    if selnum = 0 then []
    else if tradable r then r.name :: finalSelect (selnum - 1) rest
    else finalSelect selnum rest

/-- Bar fields consumed by `ImprovedMTM.next`. -/
structure MtmBar where
  high : ℚ
  low : ℚ
  close : ℚ

/-- One masked one-bar return (`ImprovedMTM.next` lines 58-64): the raw return
`close/prev_close - 1` if `high/low < k`, else `0.0`. -/
def maskedRet (k prevClose : ℚ) (b : MtmBar) : ℚ :=
  if b.high / b.low < k then b.close / prevClose - 1 else 0

/-- `collections.deque(maxlen=maxlen).append(x)`: append and drop from the front
down to `maxlen` elements. -/
def dequePush (maxlen : ℕ) (q : List ℚ) (x : ℚ) : List ℚ :=
  let q' := q ++ [x]
  if maxlen < q'.length then q'.drop (q'.length - maxlen) else q'

/-- The `ImprovedMTM` indicator run over a bar sequence: state is the previous
close and the deque of masked returns; each bar emits `sum(self.history)`. -/
def mtmRun (k : ℚ) (period : ℕ) : ℚ → List ℚ → List MtmBar → List ℚ
  | _, _, [] => []
  | prevClose, q, b :: rest =>
    let q' := dequePush period q (maskedRet k prevClose b)
    q'.sum :: mtmRun k period b.close q' rest

/-- The sequence of masked one-bar returns of a bar list, threading the previous
close through. -/
def maskedRets (k : ℚ) : ℚ → List MtmBar → List ℚ
  | _, [] => []
  | prevClose, b :: rest => maskedRet k prevClose b :: maskedRets k b.close rest

/-- The last `n` elements of a list. -/
def takeLast (n : ℕ) (l : List ℚ) : List ℚ := l.drop (l.length - n)

/-- Calendar date as carried by `self.datas[0].datetime.date(0)`. -/
structure Date where
  year : ℕ
  month : ℕ
  day : ℕ
deriving DecidableEq

/-- Gregorian leap-year rule used by Python's `datetime`. -/
def isLeapYear (y : ℕ) : Bool := (y % 4 == 0 && y % 100 != 0) || (y % 400 == 0)

/-- Number of days of month `m` in year `y`. -/
def daysInMonth (y m : ℕ) : ℕ :=
  if m = 2 then (if isLeapYear y then 29 else 28)
  else if m = 4 ∨ m = 6 ∨ m = 9 ∨ m = 11 then 30
  else 31

/-- `dt - timedelta(days=1)`. -/
def prevDate (d : Date) : Date :=
  if 1 < d.day then ⟨d.year, d.month, d.day - 1⟩
  else if 1 < d.month then ⟨d.year, d.month - 1, daysInMonth d.year (d.month - 1)⟩
  else ⟨d.year - 1, 12, 31⟩

/-- The fixed rebalance-trigger set of `StockSelectStrategy.next` (line 108). -/
def rebalanceTargets : List (ℕ × ℕ) := [(1, 31), (4, 30), (7, 15), (8, 31), (10, 31)]

/-- Line 109: `(dt - timedelta(days=1)).timetuple()[1:3] in target`. -/
def isTriggerDate (dt : Date) : Bool :=
  rebalanceTargets.contains ((prevDate dt).month, (prevDate dt).day)

/-- Scheduler-relevant state of `StockSelectStrategy`: `self.last_rebalance` plus
an abstract world `W` standing for everything `rebalance()` mutates (the target
portfolio and the submitted orders). -/
structure SchedulerState (W : Type) where
  lastRebalance : Option Date
  world : W

/-- `StockSelectStrategy.next` (lines 105-110): return unchanged if
`self.last_rebalance == dt`; otherwise, on a trigger date, run `rebalance()`
(modelled by `reb` acting on the world) and record `last_rebalance = dt`.
The boolean reports whether a rebalance fired. -/
def schedulerNext {W : Type} (reb : W → W) (s : SchedulerState W) (dt : Date) :
    SchedulerState W × Bool :=
  if s.lastRebalance = some dt then (s, false)
  else if isTriggerDate dt then (⟨some dt, reb s.world⟩, true)
  else (s, false)

end GrowthTrend

namespace MacdKdj

/-- Indicator and bar values snapshotted at the top of `MACDKDJStrategy.next`
(lines 81-87), plus the close, ATR and 10-bar SMA the branches consult. -/
structure BarCtx where
  close : ℚ
  k : ℚ
  d : ℚ
  j : ℚ
  kPre : ℚ
  dPre : ℚ
  jPre : ℚ
  macdVal : ℚ
  signalVal : ℚ
  histVal : ℚ
  vol : ℚ
  avgVol : ℚ
  rsi : ℚ
  sma10 : ℚ
  atr : ℚ

/-- The single order intent `MACDKDJStrategy.next` can emit on one bar. -/
inductive Action where
  | hold
  | enterLong
  | enterShort
  | buyMore
  | sellMore
  | exitAll
deriving DecidableEq

/-- Mutable strategy state: `self.order` (pending flag), `self.position.size`,
`self.buy_count` and `self.last_buy_price`. -/
structure TradeState where
  orderPending : Bool
  posSize : ℤ
  buyCount : ℕ
  lastBuyPrice : ℚ

/-- Branch structure of `MACDKDJStrategy.next` (lines 70-122), translated
condition for condition: pending-order guard, then the long-position branch
(pyramid / stop-loss / take-profit), the short-position branch
(pyramid / stop-loss / signal exit), and the flat entry signals. -/
def nextAction (s : TradeState) (b : BarCtx) : Action :=
  if s.orderPending then .hold
  else if 0 < s.posSize then
    if s.lastBuyPrice + 0.4 * b.atr < b.close ∧ s.buyCount < 3 ∧ b.avgVol < b.vol then .buyMore
    else if b.close < s.lastBuyPrice - 3 * b.atr then .exitAll
    else if s.lastBuyPrice + 2 * b.atr < b.close then .exitAll
    else .hold
  else if s.posSize < 0 then
    if b.close < s.lastBuyPrice - 0.5 * b.atr ∧ s.buyCount < 3 then .sellMore
    else if s.lastBuyPrice + 3 * b.atr < b.close then .exitAll
    else if 0 < b.histVal ∧ b.jPre < b.kPre ∧ b.kPre < b.j ∧ b.jPre < b.dPre ∧ b.dPre < b.j then
      .exitAll
    else .hold
  else
    if b.histVal < 0 ∧ b.jPre < b.kPre ∧ b.kPre < b.j ∧ b.jPre < b.dPre ∧ b.dPre < b.j ∧
        b.rsi < 70 then .enterLong
    else if 0 < b.macdVal ∧ 0 < b.signalVal ∧ b.j < b.kPre ∧ b.kPre < b.jPre ∧ b.j < b.dPre ∧
        b.dPre < b.jPre ∧ b.close < b.sma10 ∧ 30 < b.rsi then .enterShort
    else .hold

/-- State mutation performed by the helper the chosen branch calls
(`_enter_long`, `_enter_short`, `_buy_more`, `_sell_more`, `_exit_all`,
lines 125-156): all set a pending order; entries set `buy_count = 1` and record
the close, pyramid adds increment `buy_count` and record the close, and
`_exit_all` resets `buy_count` to 0. -/
def applyAction (s : TradeState) (b : BarCtx) : Action → TradeState
  | .hold => s
  | .enterLong => { s with orderPending := true, lastBuyPrice := b.close, buyCount := 1 }
  | .enterShort => { s with orderPending := true, lastBuyPrice := b.close, buyCount := 1 }
  | .buyMore => { s with orderPending := true, lastBuyPrice := b.close, buyCount := s.buyCount + 1 }
  | .sellMore => { s with orderPending := true, lastBuyPrice := b.close, buyCount := s.buyCount + 1 }
  | .exitAll => { s with orderPending := true, buyCount := 0 }

/-- One full evaluation of `MACDKDJStrategy.next` on a bar. -/
def nextStep (s : TradeState) (b : BarCtx) : TradeState := applyAction s b (nextAction s b)

/-- Order sizing of every entry/pyramid helper (lines 127, 134, 141, 148):
`int(max((self.broker.getvalue() * 0.005) / (self.ATR[0] * 300 * 0.1), 1))`.
Python's `int` truncates toward zero; the argument is `>= 1` after the `max`,
where truncation and floor coincide, so the floor is the faithful model. -/
def orderSize (equity atr : ℚ) : ℤ := ⌊max (equity * 0.005 / (atr * 300 * 0.1)) 1⌋

/-- The flat, order-free strategy state (fresh `__init__` values). -/
def flatState : TradeState := ⟨false, 0, 0, 0⟩

/-- A bar on which the J-line rises above the prior bar's K and D
(`j_pre = 10 < k_pre = d_pre = 20 < j = 30`) while staying below the current
bar's K and D (`k = d = 40`), with negative histogram and RSI 50. -/
def crossBar : BarCtx :=
  { close := 100, k := 40, d := 40, j := 30, kPre := 20, dPre := 20, jPre := 10,
    macdVal := 0, signalVal := 0, histVal := -1, vol := 0, avgVol := 0,
    rsi := 50, sma10 := 0, atr := 1 }

/-- A bar on which, against a long entry at price 100 with ATR 1, both the
pyramiding condition (`100 + 0.4 < 200`, volume above average) and the
take-profit condition (`100 + 2 < 200`) hold. -/
def pyramidBar : BarCtx :=
  { close := 200, k := 0, d := 0, j := 0, kPre := 0, dPre := 0, jPre := 0,
    macdVal := 0, signalVal := 0, histVal := 0, vol := 10, avgVol := 5,
    rsi := 0, sma10 := 0, atr := 1 }

end MacdKdj

namespace GrowthTrend

lemma basePool_scenario_eq_nil : basePool ttmScenario accScenario [0, 1, 2] = [] := by
  norm_num [basePool, topThird, sortDescBy, List.insertionSort, List.orderedInsert,
    ttmScenario, accScenario]

lemma mem_basePool {α : Type} {ttm acc : α → ℚ} {univ : List α} {n : α}
    (hn : n ∈ basePool ttm acc univ) : 0 < acc n ∧ n ∈ topThird ttm univ := by
  unfold basePool at hn
  have h1 : n ∈ sortDescBy acc ((topThird ttm univ).filter (fun m => decide (0 < acc m))) :=
    List.mem_of_mem_take hn
  have h2 := (List.mem_insertionSort _).mp h1
  have h3 := List.mem_filter.mp h2
  exact ⟨of_decide_eq_true h3.2, h3.1⟩

end GrowthTrend

open GrowthTrend in
/-- C1 (counterexample): in the three-instrument scenario with TTM growth
`[0.30, 0.10, -0.05]` and acceleration `[1.5, -0.2, 0.8]`, the base pool does
NOT contain the top-TTM positive-acceleration instrument (index 0): the single
survivor of the top-third cut is truncated away by `acc_vals[:1//2] = acc_vals[:0]`,
so the pool is empty, contradicting the claim that it contains exactly that
instrument. -/
theorem basePool_scenario_not_singleton :
    (0 : ℕ) ∉ basePool ttmScenario accScenario [0, 1, 2] ∧
    basePool ttmScenario accScenario [0, 1, 2] = [] := by
  refine ⟨?_, basePool_scenario_eq_nil⟩
  rw [basePool_scenario_eq_nil]
  exact List.not_mem_nil 0

open GrowthTrend in
/-- C1 (amended): the base pool keeps, of the top third of the universe ranked by
TTM growth descending, only instruments with positive acceleration, and its size
is exactly half (truncating) of the positive-acceleration survivors; consequently
in the three-instrument scenario (`1//2 = 0`) the base pool is empty rather than
containing the top instrument. -/
theorem basePool_staging {α : Type} (ttm acc : α → ℚ) (univ : List α) :
    (∀ n ∈ basePool ttm acc univ, 0 < acc n ∧ n ∈ topThird ttm univ) ∧
    (basePool ttm acc univ).length =
      ((topThird ttm univ).filter (fun n => decide (0 < acc n))).length / 2 ∧
    basePool ttmScenario accScenario [0, 1, 2] = [] := by
  refine ⟨fun n hn => mem_basePool hn, ?_, basePool_scenario_eq_nil⟩
  unfold basePool sortDescBy
  rw [List.length_take, List.length_insertionSort]
  exact Nat.min_eq_left (Nat.div_le_self _ _)

/-- Witness for `basePool_staging`: a six-instrument universe with strictly
descending TTM and unit acceleration has base pool `[0]`, and the theorem applied
there shows instrument 0 passed the positivity and top-third stages. -/
theorem basePool_staging_witness :
    0 < (fun _ : ℕ => (1 : ℚ)) 0 ∧
      (0 : ℕ) ∈ GrowthTrend.topThird (fun n : ℕ => -(n : ℚ)) [0, 1, 2, 3, 4, 5] :=
  (basePool_staging (fun n : ℕ => -(n : ℚ)) (fun _ => 1) [0, 1, 2, 3, 4, 5]).1 0 (by
    norm_num [GrowthTrend.basePool, GrowthTrend.topThird, GrowthTrend.sortDescBy,
      List.insertionSort, List.orderedInsert])

namespace GrowthTrend

lemma foldl_min_le {α : Type} [LinearOrder α] :
    ∀ (xs : List α) (x y : α), y ∈ x :: xs → xs.foldl min x ≤ y := by
  intro xs
  induction xs with
  | nil =>
    intro x y hy
    rw [List.mem_singleton] at hy
    subst hy
    exact le_refl _
  | cons a as ih =>
    intro x y hy
    have hz : ∀ z, as.foldl min z ≤ z := fun z => ih z z (List.mem_cons_self z as)
    simp only [List.foldl_cons]
    rcases List.mem_cons.mp hy with rfl | hy'
    · exact le_trans (hz (min y a)) (min_le_left y a)
    · rcases List.mem_cons.mp hy' with rfl | hy''
      · exact le_trans (hz (min x y)) (min_le_right x y)
      · exact ih (min x a) y (List.mem_cons_of_mem (min x a) hy'')

lemma le_foldl_max {α : Type} [LinearOrder α] :
    ∀ (xs : List α) (x y : α), y ∈ x :: xs → y ≤ xs.foldl max x := by
  intro xs
  induction xs with
  | nil =>
    intro x y hy
    rw [List.mem_singleton] at hy
    subst hy
    exact le_refl _
  | cons a as ih =>
    intro x y hy
    have hz : ∀ z, z ≤ as.foldl max z := fun z => ih z z (List.mem_cons_self z as)
    simp only [List.foldl_cons]
    rcases List.mem_cons.mp hy with rfl | hy'
    · exact le_trans (le_max_left y a) (hz (max y a))
    · rcases List.mem_cons.mp hy' with rfl | hy''
      · exact le_trans (le_max_right x y) (hz (max x y))
      · exact ih (max x a) y (List.mem_cons_of_mem (max x a) hy'')

lemma foldl_min_of_all_eq :
    ∀ (xs : List ℚ) (x : ℚ), (∀ y ∈ xs, y = x) → xs.foldl min x = x := by
  intro xs
  induction xs with
  | nil => intro x _; rfl
  | cons a as ih =>
    intro x h
    have ha : a = x := h a (List.mem_cons_self a as)
    simp only [List.foldl_cons, ha, min_self]
    exact ih x (fun y hy => h y (List.mem_cons_of_mem a hy))

lemma foldl_max_of_all_eq :
    ∀ (xs : List ℚ) (x : ℚ), (∀ y ∈ xs, y = x) → xs.foldl max x = x := by
  intro xs
  induction xs with
  | nil => intro x _; rfl
  | cons a as ih =>
    intro x h
    have ha : a = x := h a (List.mem_cons_self a as)
    simp only [List.foldl_cons, ha, max_self]
    exact ih x (fun y hy => h y (List.mem_cons_of_mem a hy))

/-- In the degenerate case (all defined values identical), `norm` maps every
entry of the input - including NaN entries - to exactly 50. -/
lemma norm_degenerate {arr : List (Option ℚ)} {x : ℚ} {xs : List ℚ}
    (hv : arr.filterMap id = x :: xs) (hdeg : ∀ y ∈ arr.filterMap id, y = x) :
    norm arr = some (arr.map (fun _ => some 50)) := by
  unfold norm
  rw [hv]
  dsimp only
  have hxs : ∀ y ∈ xs, y = x := fun y hy => hdeg y (hv ▸ List.mem_cons_of_mem x hy)
  rw [foldl_min_of_all_eq xs x hxs, foldl_max_of_all_eq xs x hxs]
  simp

end GrowthTrend

open GrowthTrend in
/-- C4 (confirmed): on any factor array with at least one defined value, `norm`
succeeds; every defined output lies in `[0, 100]`; and when all defined values
are identical every member of the eligible set receives exactly 50. -/
theorem norm_minmax (arr : List (Option ℚ)) (x : ℚ) (xs : List ℚ)
    (hv : arr.filterMap id = x :: xs) :
    ∃ out, norm arr = some out ∧
      (∀ o ∈ out, ∀ q : ℚ, o = some q → 0 ≤ q ∧ q ≤ 100) ∧
      ((∀ y ∈ arr.filterMap id, y = x) → out = arr.map (fun _ => some 50)) := by
  by_cases hdeg : ∀ y ∈ arr.filterMap id, y = x
  · refine ⟨arr.map (fun _ => some 50), norm_degenerate hv hdeg, ?_, fun _ => rfl⟩
    intro o ho q hq
    rcases List.mem_map.mp ho with ⟨o', _, rfl⟩
    obtain rfl : (50 : ℚ) = q := Option.some.inj hq
    norm_num
  · unfold GrowthTrend.norm
    rw [hv]
    dsimp only
    set mn := xs.foldl min x with hmn
    set mx := xs.foldl max x with hmx
    have hmn_le : ∀ y ∈ x :: xs, mn ≤ y := fun y hy => foldl_min_le xs x y hy
    have hle_mx : ∀ y ∈ x :: xs, y ≤ mx := fun y hy => le_foldl_max xs x y hy
    have hne : mn ≠ mx := by
      intro he
      apply hdeg
      intro y hy
      rw [hv] at hy
      have h1 := hmn_le y hy
      have h2 := hle_mx y hy
      have hx1 := hmn_le x (List.mem_cons_self x xs)
      have hx2 := hle_mx x (List.mem_cons_self x xs)
      rw [← he] at h2 hx2
      have hy_eq : y = mn := le_antisymm h2 h1
      have hx_eq : x = mn := le_antisymm hx2 hx1
      rw [hy_eq, hx_eq]
    rw [if_neg hne]
    refine ⟨_, rfl, ?_, fun h => absurd (hv.symm ▸ h) hdeg⟩
    intro o ho q hq
    rcases List.mem_map.mp ho with ⟨o', ho', rfl⟩
    rcases o' with _ | t
    · exact absurd hq (by simp)
    · have ht : t ∈ x :: xs := by
        rw [← hv]
        exact List.mem_filterMap.mpr ⟨some t, ho', rfl⟩
      have h1 : mn ≤ t := hmn_le t ht
      have h2 : t ≤ mx := hle_mx t ht
      have hlt : mn < mx :=
        lt_of_le_of_ne (hmn_le x (List.mem_cons_self x xs) |>.trans
          (hle_mx x (List.mem_cons_self x xs))) hne
      obtain rfl : (t - mn) / (mx - mn) * 100 = q := by
        simpa using hq
      constructor
      · have hnn : 0 ≤ (t - mn) / (mx - mn) := div_nonneg (by linarith) (by linarith)
        exact mul_nonneg hnn (by norm_num)
      · have hdiv : (t - mn) / (mx - mn) ≤ 1 := by
          rw [div_le_one (by linarith)]
          linarith
        have := mul_le_mul_of_nonneg_right hdiv (by norm_num : (0 : ℚ) ≤ 100)
        simpa using this

/-- Witness for `norm_minmax` on the two-value array `[1, 3]`. -/
theorem norm_minmax_witness :
    ∃ out, GrowthTrend.norm [some (1 : ℚ), some 3] = some out ∧
      (∀ o ∈ out, ∀ q : ℚ, o = some q → 0 ≤ q ∧ q ≤ 100) ∧
      ((∀ y ∈ ([some (1 : ℚ), some 3] : List (Option ℚ)).filterMap id, y = 1) →
        out = ([some (1 : ℚ), some 3] : List (Option ℚ)).map (fun _ => some 50)) :=
  norm_minmax [some 1, some 3] 1 [3] rfl

open GrowthTrend in
/-- C3 (counterexample): on the factor array `[NaN, 5.0]` the `norm` helper
returns `[50, 50]` - the undefined entry is coerced to the real number 50 and
ranked - and an instrument whose npap, solvency, roe and average-value factors
are all NaN passes the hard filters (every IEEE comparison against NaN is
false, so no `continue` fires), hence is NOT excluded from the eligible set. -/
theorem nan_ranked_fifty :
    norm [none, some 5] = some [some 50, some 50] ∧
    passesHardFilters none none none none 0 false false = true :=
  ⟨rfl, rfl⟩

open GrowthTrend in
/-- C3 (amended): NaN factor values are excluded only from the min/max
computation inside `norm`; whenever the defined values are degenerate (all equal)
every entry - NaN entries included - is mapped to the real number 50 and thus
ranked, and an instrument lacking every required factor value still passes the
hard filters, so it is not excluded from the eligible set. -/
theorem nan_not_excluded (arr : List (Option ℚ)) (x : ℚ)
    (hnan : (none : Option ℚ) ∈ arr) (hv : arr.filterMap id = [x]) :
    norm arr = some (arr.map (fun _ => some 50)) ∧
    (some (50 : ℚ)) ∈ (norm arr).getD [] ∧
    passesHardFilters none none none none 0 false false = true := by
  have hdeg : ∀ y ∈ arr.filterMap id, y = x := by
    intro y hy
    rw [hv] at hy
    exact List.mem_singleton.mp hy
  have h1 : norm arr = some (arr.map (fun _ => some 50)) := norm_degenerate hv hdeg
  refine ⟨h1, ?_, rfl⟩
  rw [h1]
  exact List.mem_map.mpr ⟨none, hnan, rfl⟩

/-- Witness for `nan_not_excluded` on the array `[NaN, 5.0]`. -/
theorem nan_not_excluded_witness :
    GrowthTrend.norm [none, some (5 : ℚ)] =
      some (([none, some (5 : ℚ)] : List (Option ℚ)).map (fun _ => some 50)) ∧
    (some (50 : ℚ)) ∈ (GrowthTrend.norm [none, some (5 : ℚ)]).getD [] ∧
    GrowthTrend.passesHardFilters none none none none 0 false false = true :=
  nan_not_excluded [none, some 5] 5 (List.mem_cons_self none [some 5]) rfl

namespace GrowthTrend

/-- The final-selection loop collects exactly the first `selnum` tradable names
of the ranked list, in order. -/
lemma finalSelect_eq_take_filter (selnum : ℕ) (comp : List SelRow) :
    finalSelect selnum comp = ((comp.filter tradable).map SelRow.name).take selnum := by
  induction comp generalizing selnum with
  | nil => simp [finalSelect]
  | cons r rest ih =>
    cases selnum with
    | zero => simp [finalSelect]
    | succ m =>
      by_cases ht : tradable r
      · simp [finalSelect, ht, ih]
      · simp [finalSelect, ht, ih]

end GrowthTrend

open GrowthTrend in
/-- C5 (confirmed): for distinct instrument names, the final selection has at
most `selnum_final` members, no duplicates, and equals the first `selnum_final`
names of the composite ranking once halted (high = low) and zero-volume rows
are skipped; when the ranked list is exhausted the result is simply shorter. -/
theorem finalSelect_spec (selnum : ℕ) (comp : List SelRow)
    (hnodup : (comp.map SelRow.name).Nodup) :
    (finalSelect selnum comp).length ≤ selnum ∧
    (finalSelect selnum comp).Nodup ∧
    finalSelect selnum comp = ((comp.filter tradable).map SelRow.name).take selnum := by
  refine ⟨?_, ?_, finalSelect_eq_take_filter selnum comp⟩
  · rw [finalSelect_eq_take_filter]
    exact List.length_take_le _ _
  · rw [finalSelect_eq_take_filter]
    exact hnodup.sublist
      ((List.take_sublist _ _).trans (List.Sublist.map SelRow.name (List.filter_sublist _)))

/-- Witness for `finalSelect_spec`: four ranked rows of which the first is
halted and the third has zero volume; with `selnum_final = 2` the selection is
`["B", "D"]`. -/
theorem finalSelect_spec_witness :
    (GrowthTrend.finalSelect 2
        [⟨"A", 1, 1, 5⟩, ⟨"B", 2, 1, 5⟩, ⟨"C", 2, 1, 0⟩, ⟨"D", 3, 1, 7⟩]).length ≤ 2 ∧
    (GrowthTrend.finalSelect 2
        [⟨"A", 1, 1, 5⟩, ⟨"B", 2, 1, 5⟩, ⟨"C", 2, 1, 0⟩, ⟨"D", 3, 1, 7⟩]).Nodup ∧
    GrowthTrend.finalSelect 2
        [⟨"A", 1, 1, 5⟩, ⟨"B", 2, 1, 5⟩, ⟨"C", 2, 1, 0⟩, ⟨"D", 3, 1, 7⟩] =
      ((([⟨"A", 1, 1, 5⟩, ⟨"B", 2, 1, 5⟩, ⟨"C", 2, 1, 0⟩, ⟨"D", 3, 1, 7⟩] :
          List GrowthTrend.SelRow).filter GrowthTrend.tradable).map
        GrowthTrend.SelRow.name).take 2 :=
  finalSelect_spec 2 [⟨"A", 1, 1, 5⟩, ⟨"B", 2, 1, 5⟩, ⟨"C", 2, 1, 0⟩, ⟨"D", 3, 1, 7⟩]
    (by simp)

open GrowthTrend in
/-- C8 (confirmed): once a rebalance has executed on date `dt`
(`last_rebalance = dt` was recorded), every further invocation of the per-bar
step on the same date returns the state unchanged and fires no rebalance. -/
theorem scheduler_idempotent {W : Type} (reb : W → W) (s : SchedulerState W) (dt : Date)
    (hfired : (schedulerNext reb s dt).2 = true) :
    schedulerNext reb (schedulerNext reb s dt).1 dt = ((schedulerNext reb s dt).1, false) := by
  unfold schedulerNext at hfired ⊢
  by_cases h1 : s.lastRebalance = some dt
  · simp [h1] at hfired
  · by_cases h2 : isTriggerDate dt = true
    · simp [h1, h2]
    · simp [h1, h2] at hfired

/-- Witness for `scheduler_idempotent`: 2021-02-01 has prior calendar day
(1, 31), a trigger, so the first step fires and the second is a no-op. -/
theorem scheduler_idempotent_witness :
    GrowthTrend.schedulerNext (fun n : ℕ => n + 1)
      (GrowthTrend.schedulerNext (fun n : ℕ => n + 1) ⟨none, 0⟩ ⟨2021, 2, 1⟩).1 ⟨2021, 2, 1⟩ =
    ((GrowthTrend.schedulerNext (fun n : ℕ => n + 1) ⟨none, 0⟩ ⟨2021, 2, 1⟩).1, false) :=
  scheduler_idempotent (fun n : ℕ => n + 1) ⟨none, 0⟩ ⟨2021, 2, 1⟩ (by decide)

namespace GrowthTrend

lemma length_takeLast (n : ℕ) (l : List ℚ) : (takeLast n l).length = min n l.length := by
  unfold takeLast
  rw [List.length_drop]
  omega

lemma takeLast_of_length_le {n : ℕ} {l : List ℚ} (h : l.length ≤ n) : takeLast n l = l := by
  unfold takeLast
  rw [Nat.sub_eq_zero_of_le h, List.drop_zero]

lemma takeLast_append_of_le {n : ℕ} (l₁ l₂ : List ℚ) (h : n ≤ l₂.length) :
    takeLast n (l₁ ++ l₂) = takeLast n l₂ := by
  unfold takeLast
  rw [List.length_append, Nat.add_sub_assoc h, List.drop_append]

lemma takeLast_takeLast_append (n : ℕ) (l t : List ℚ) :
    takeLast n (takeLast n l ++ t) = takeLast n (l ++ t) := by
  by_cases h : l.length ≤ n
  · rw [takeLast_of_length_le h]
  · push_neg at h
    have hlen : (takeLast n l).length = n := by
      rw [length_takeLast]
      omega
    have hsplit : l ++ t = l.take (l.length - n) ++ (takeLast n l ++ t) := by
      rw [← List.append_assoc]
      unfold takeLast
      rw [List.take_append_drop]
    rw [hsplit, takeLast_append_of_le (l.take (l.length - n)) (takeLast n l ++ t)
      (by rw [List.length_append, hlen]; exact Nat.le_add_right n t.length)]

lemma dequePush_eq_takeLast (maxlen : ℕ) (q : List ℚ) (x : ℚ) :
    dequePush maxlen q x = takeLast maxlen (q ++ [x]) := by
  unfold dequePush takeLast
  by_cases h : maxlen < (q ++ [x]).length
  · rw [if_pos h]
  · rw [if_neg h]
    push_neg at h
    rw [Nat.sub_eq_zero_of_le h, List.drop_zero]

/-- The imperative deque run of `ImprovedMTM` refines the declarative value:
the `i`-th output is the sum of the last `period` masked returns seen so far,
starting from deque contents `q`. -/
lemma mtmRun_eq (k : ℚ) (p : ℕ) :
    ∀ (bars : List MtmBar) (pc : ℚ) (q : List ℚ),
      mtmRun k p pc q bars =
        (List.range bars.length).map
          (fun i => (takeLast p (q ++ (maskedRets k pc bars).take (i + 1))).sum) := by
  intro bars
  induction bars with
  | nil => intro pc q; rfl
  | cons b rest ih =>
    intro pc q
    simp only [mtmRun, maskedRets, List.length_cons, List.range_succ_eq_map,
      List.map_cons, List.map_map]
    refine List.cons_eq_cons.mpr ⟨?_, ?_⟩
    · rw [dequePush_eq_takeLast]
      simp
    · rw [ih b.close (dequePush p q (maskedRet k pc b))]
      apply List.map_congr_left
      intro i _
      simp only [Function.comp_apply]
      rw [dequePush_eq_takeLast, takeLast_takeLast_append, List.append_assoc]
      simp [List.take_succ_cons]

end GrowthTrend

open GrowthTrend in
/-- C9 (confirmed): the gated momentum indicator with threshold `k = 1.08` and
window 20 outputs, on every bar, the sum of the last 20 masked one-bar returns;
a bar with high/low quotient `≥ k` contributes exactly 0, and the raw return
`close/prev_close - 1` enters the window unmasked exactly when the quotient is
strictly below `k`. -/
theorem gated_momentum (pc : ℚ) (bars : List MtmBar) :
    (∀ b : MtmBar, ∀ pc' : ℚ, (1.08 : ℚ) ≤ b.high / b.low → maskedRet 1.08 pc' b = 0) ∧
    (∀ b : MtmBar, ∀ pc' : ℚ, b.high / b.low < (1.08 : ℚ) →
      maskedRet 1.08 pc' b = b.close / pc' - 1) ∧
    mtmRun 1.08 20 pc [] bars =
      (List.range bars.length).map
        (fun i => (takeLast 20 ((maskedRets 1.08 pc bars).take (i + 1))).sum) := by
  refine ⟨?_, ?_, ?_⟩
  · intro b pc' h
    unfold maskedRet
    rw [if_neg (not_lt.mpr h)]
  · intro b pc' h
    unfold maskedRet
    rw [if_pos h]
  · rw [mtmRun_eq]
    simp

/-- Witness for `gated_momentum`: a bar with high 2 and low 1 (quotient 2 ≥ 1.08)
is masked to 0, and a one-bar run matches the declarative sum. -/
theorem gated_momentum_witness :
    GrowthTrend.maskedRet 1.08 1 ⟨2, 1, 3⟩ = 0 ∧
    GrowthTrend.mtmRun 1.08 20 1 [] [⟨2, 1, 3⟩] =
      (List.range 1).map
        (fun i => (GrowthTrend.takeLast 20
          ((GrowthTrend.maskedRets 1.08 1 [⟨2, 1, 3⟩]).take (i + 1))).sum) :=
  ⟨(gated_momentum 1 [⟨2, 1, 3⟩]).1 ⟨2, 1, 3⟩ 1 (by norm_num),
    (gated_momentum 1 [⟨2, 1, 3⟩]).2.2⟩

namespace MacdKdj

/-- `int(max(x, 1))` equals `max(1, floor(x))` for rationals: both truncations
agree because the argument of `int` is at least 1. -/
lemma floor_max_one (x : ℚ) : ⌊max x 1⌋ = max 1 ⌊x⌋ := by
  rcases le_total x 1 with h | h
  · have hfl : ⌊x⌋ ≤ 1 := by
      have := Int.floor_le_floor h
      simpa using this
    rw [max_eq_right h, Int.floor_one, max_eq_left hfl]
  · have hfl : (1 : ℤ) ≤ ⌊x⌋ := by
      rw [Int.le_floor]
      exact_mod_cast h
    rw [max_eq_left h, max_eq_right hfl]

/-- A pyramiding action is emitted only under the branch guard, which includes
`buy_count < 3`. -/
lemma buyCount_lt_of_add (s : TradeState) (b : BarCtx)
    (ha : nextAction s b = Action.buyMore ∨ nextAction s b = Action.sellMore) :
    s.buyCount < 3 := by
  unfold nextAction at ha
  split_ifs at ha <;> simp_all

end MacdKdj

open MacdKdj in
/-- C2 (counterexample): with a flat position and no pending order, on a bar
with `j_pre = 10`, `k_pre = d_pre = 20`, `j = 30`, `k = d = 40`, histogram `-1`
and RSI 50, the code issues a long entry although the current J-line (30) is
BELOW the current K and D (40): the code compares the current J against the
prior bar's K and D, so the claim's "current J above current K and D" condition
fails yet the entry is issued. -/
theorem long_entry_despite_current_kd :
    nextAction flatState crossBar = Action.enterLong ∧
    crossBar.j < crossBar.k ∧ crossBar.j < crossBar.d := by
  refine ⟨?_, by norm_num [crossBar], by norm_num [crossBar]⟩
  norm_num [nextAction, flatState, crossBar]

open MacdKdj in
/-- C2 (amended): with a flat position and no pending order, a long entry is
issued if and only if the MACD histogram is negative, the prior J is below the
prior K and prior D, the CURRENT J is above the PRIOR K and PRIOR D (the code
never consults the current bar's K or D), and RSI(14) < 70. -/
theorem flat_long_entry_iff (s : TradeState) (b : BarCtx)
    (hp : s.orderPending = false) (hflat : s.posSize = 0) :
    nextAction s b = Action.enterLong ↔
      (b.histVal < 0 ∧ b.jPre < b.kPre ∧ b.kPre < b.j ∧ b.jPre < b.dPre ∧ b.dPre < b.j ∧
        b.rsi < 70) := by
  unfold nextAction
  rw [hp, hflat]
  norm_num
  split_ifs <;> simp_all

/-- Witness for `flat_long_entry_iff`: the crossing bar satisfies the amended
condition, and the theorem yields the long entry. -/
theorem flat_long_entry_iff_witness :
    MacdKdj.nextAction MacdKdj.flatState MacdKdj.crossBar = MacdKdj.Action.enterLong :=
  (flat_long_entry_iff MacdKdj.flatState MacdKdj.crossBar rfl rfl).mpr
    (by norm_num [MacdKdj.crossBar])

open MacdKdj in
/-- C6 (confirmed): the pyramid count stays within `[0, 3]` across every bar
evaluation; a pyramiding add is only taken when `buy_count < 3` and increments
it by exactly 1, and every full-exit action resets it to 0 in the same step. -/
theorem pyramid_count_invariant (s : TradeState) (b : BarCtx) (h : s.buyCount ≤ 3) :
    (nextStep s b).buyCount ≤ 3 ∧
    ((nextAction s b = Action.buyMore ∨ nextAction s b = Action.sellMore) →
      s.buyCount < 3 ∧ (nextStep s b).buyCount = s.buyCount + 1) ∧
    (nextAction s b = Action.exitAll → (nextStep s b).buyCount = 0) := by
  refine ⟨?_, fun ha => ⟨buyCount_lt_of_add s b ha, ?_⟩, fun ha => ?_⟩
  · unfold nextStep
    cases hA : nextAction s b
    · exact h
    · exact by norm_num [applyAction]
    · exact by norm_num [applyAction]
    · have := buyCount_lt_of_add s b (Or.inl hA)
      simp only [applyAction]
      omega
    · have := buyCount_lt_of_add s b (Or.inr hA)
      simp only [applyAction]
      omega
    · exact by norm_num [applyAction]
  · unfold nextStep
    rcases ha with ha | ha <;> rw [ha] <;> rfl
  · unfold nextStep
    rw [ha]
    rfl

/-- Witness for `pyramid_count_invariant`: a long position with one tranche on a
bar satisfying the pyramiding guard adds exactly one tranche. -/
theorem pyramid_count_invariant_witness :
    (⟨false, 1, 1, 100⟩ : MacdKdj.TradeState).buyCount < 3 ∧
    (MacdKdj.nextStep ⟨false, 1, 1, 100⟩ MacdKdj.pyramidBar).buyCount =
      (⟨false, 1, 1, 100⟩ : MacdKdj.TradeState).buyCount + 1 :=
  (pyramid_count_invariant ⟨false, 1, 1, 100⟩ MacdKdj.pyramidBar (by norm_num)).2.1
    (Or.inl (by norm_num [MacdKdj.nextAction, MacdKdj.pyramidBar]))

open MacdKdj in
/-- C7 (confirmed): the entry/pyramid order size equals
`max(1, floor(equity × 0.005 / (ATR × 300 × 0.1)))`, is always at least 1, and
for equal equity a larger ATR never yields a larger size. -/
theorem order_size_spec (e a₁ a₂ : ℚ) (he : 0 ≤ e) (h₁ : 0 < a₁) (h₁₂ : a₁ ≤ a₂) :
    orderSize e a₁ = max 1 ⌊e * 0.005 / (a₁ * 300 * 0.1)⌋ ∧
    1 ≤ orderSize e a₁ ∧
    orderSize e a₂ ≤ orderSize e a₁ := by
  have key : ∀ a : ℚ, orderSize e a = max 1 ⌊e * 0.005 / (a * 300 * 0.1)⌋ := fun a => by
    unfold orderSize
    exact floor_max_one _
  refine ⟨key a₁, ?_, ?_⟩
  · rw [key a₁]
    exact le_max_left _ _
  · rw [key a₁, key a₂]
    have hd₁ : (0 : ℚ) < a₁ * 300 * 0.1 := by nlinarith
    have hd₂ : a₁ * 300 * 0.1 ≤ a₂ * 300 * 0.1 := by nlinarith
    have hnum : (0 : ℚ) ≤ e * 0.005 := mul_nonneg he (by norm_num)
    exact max_le_max le_rfl (Int.floor_le_floor (div_le_div_of_nonneg_left hnum hd₁ hd₂))

/-- Witness for `order_size_spec` at equity 1000000 and ATRs 10 ≤ 20. -/
theorem order_size_spec_witness :
    MacdKdj.orderSize 1000000 10 = max 1 ⌊(1000000 : ℚ) * 0.005 / (10 * 300 * 0.1)⌋ ∧
    1 ≤ MacdKdj.orderSize 1000000 10 ∧
    MacdKdj.orderSize 1000000 20 ≤ MacdKdj.orderSize 1000000 10 :=
  order_size_spec 1000000 10 20 (by norm_num) (by norm_num) (by norm_num)

open MacdKdj in
/-- C10 (confirmed): on a bar with an open position and no pending order the
state machine takes a single action chosen by branch priority: for a long
position the pyramiding guard is evaluated first, so whenever it holds - even
on a bar that also satisfies the take-profit condition - the action is a
pyramiding buy, not an exit; mirroring this, a short position satisfying the
short pyramiding guard sells more rather than exiting. -/
theorem branch_priority (s : TradeState) (b : BarCtx) (hp : s.orderPending = false) :
    (0 < s.posSize → s.lastBuyPrice + 0.4 * b.atr < b.close → s.buyCount < 3 →
      b.avgVol < b.vol → nextAction s b = Action.buyMore) ∧
    (s.posSize < 0 → b.close < s.lastBuyPrice - 0.5 * b.atr → s.buyCount < 3 →
      nextAction s b = Action.sellMore) := by
  constructor
  · intro hpos h1 h2 h3
    unfold nextAction
    rw [hp]
    simp only [Bool.false_eq_true, if_false]
    rw [if_pos hpos, if_pos ⟨h1, h2, h3⟩]
  · intro hneg h1 h2
    unfold nextAction
    rw [hp]
    simp only [Bool.false_eq_true, if_false]
    rw [if_neg (not_lt.mpr hneg.le), if_pos hneg, if_pos ⟨h1, h2⟩]

/-- Witness for `branch_priority`: on `pyramidBar` the take-profit condition
`100 + 2 × ATR < close` also holds, yet the long position is pyramided. -/
theorem branch_priority_witness :
    MacdKdj.nextAction ⟨false, 1, 1, 100⟩ MacdKdj.pyramidBar = MacdKdj.Action.buyMore :=
  (branch_priority ⟨false, 1, 1, 100⟩ MacdKdj.pyramidBar rfl).1 (by norm_num)
    (by norm_num [MacdKdj.pyramidBar]) (by norm_num) (by norm_num [MacdKdj.pyramidBar])

end QuantStrats
